import Mathlib

/-!
Shallow embedding of the bill-generator label-layout code (`app.py` and
`bill.py`).  Pure fragments of the Python sources are translated into
executable Lean definitions; floating-point arithmetic is modelled over ℚ.
-/

namespace BillGen

/-! ## Python string primitives used by both entry scripts -/

/-- Python whitespace (the set matched by `str.strip()` and by `re` module
class `\s` on `str`): ASCII `\t \n \x0b \x0c \r \x1c-\x1f space`,
`\x85`, `\xa0`, ` `, ` `–` `, ` `, ` `,
` `, ` `, `　`. -/
def pyIsSpace (c : Char) : Bool :=
  let n := c.toNat
  (0x09 ≤ n && n ≤ 0x0d) || (0x1c ≤ n && n ≤ 0x1f) || n == 0x20 ||
    n == 0x85 || n == 0xa0 || n == 0x1680 ||
    (0x2000 ≤ n && n ≤ 0x200a) || n == 0x2028 || n == 0x2029 ||
    n == 0x202f || n == 0x205f || n == 0x3000

/-- The character class removed by `clean_text`:
`[\x00-\x1F\x7F-\x9F -⁯■□●◾◻▪▫□]` (app.py line 63 /
bill.py line 119). -/
def isRemoved (c : Char) : Bool :=
  let n := c.toNat
  n ≤ 0x1f || (0x7f ≤ n && n ≤ 0x9f) || (0x2000 ≤ n && n ≤ 0x206f) ||
    n == 0x25a0 || n == 0x25a1 || n == 0x25cf || n == 0x25fe ||
    n == 0x25fb || n == 0x25aa || n == 0x25ab

/-- Remove trailing Python whitespace from a character list. -/
def trimRight : List Char → List Char
  | [] => []
  | c :: rest =>
    match trimRight rest with
    | [] => if pyIsSpace c then [] else [c]
    | r => c :: r

/-- Python `str.strip()` on a character list: remove leading and trailing
whitespace. -/
def stripL (l : List Char) : List Char :=
  trimRight (l.dropWhile pyIsSpace)

/-- Python `str.strip()` on a string. -/
def pyStrip (s : String) : String :=
  ⟨stripL s.data⟩

/-- Worker for `re.sub(r"\s+", " ", ·)`: the flag records whether we are
inside a whitespace run whose single replacement `' '` was already
emitted. -/
def collapseAux : Bool → List Char → List Char
  | _, [] => []
  | inWs, c :: rest =>
    if pyIsSpace c then
      if inWs then collapseAux true rest
      else ' ' :: collapseAux true rest
    else c :: collapseAux false rest

/-- Python `re.sub(r"\s+", " ", ·)`: replace every maximal whitespace run
by a single space. -/
def collapseWs (l : List Char) : List Char :=
  collapseAux false l

/-- `clean_text` from app.py lines 61–65: strip the string, delete the
removed-character class, then collapse whitespace runs to single
spaces. -/
def clean_text (s : String) : String :=
  ⟨collapseWs ((stripL s.data).filter (fun c => !isRemoved c))⟩

/-- `get_font_size_pt` from app.py lines 47–58: area thresholds in cm²
(`none` models Python `None`). -/
def get_font_size_pt (area_cm2 : Option ℚ) : ℕ :=
  match area_cm2 with
  | none => 8
  | some a =>
    if a ≤ 50 then 8
    else if a ≤ 100 then 9
    else if a ≤ 500 then 10
    else if a ≤ 2500 then 16
    else 24

end BillGen

namespace BillGen.Bill

/-- `clean_text` from bill.py lines 117–121 (the batch entry script's
copy). -/
def clean_text (s : String) : String :=
  ⟨BillGen.collapseWs ((BillGen.stripL s.data).filter (fun c => !BillGen.isRemoved c))⟩

/-- `get_font_size_pt` from bill.py lines 79–90 (the batch entry script's
copy). -/
def get_font_size_pt (area_cm2 : Option ℚ) : ℕ :=
  match area_cm2 with
  | none => 8
  | some a =>
    if a ≤ 50 then 8
    else if a ≤ 100 then 9
    else if a ≤ 500 then 10
    else if a ≤ 2500 then 16
    else 24

end BillGen.Bill

namespace BillGen

/-! ## Layout units and width selection (reportlab units, modelled in ℚ) -/

/-- reportlab `inch` = 72 points. -/
def inchPt : ℚ := 72

/-- reportlab `cm` = `inch / 2.54` points. -/
def cmPt : ℚ := inchPt / (254 / 100)

/-- reportlab `mm` = `cm * 0.1` points. -/
def mmPt : ℚ := cmPt * (1 / 10)

/-- reportlab `A4[0]` (portrait width) = `210 * mm` points. -/
def a4WidthPt : ℚ := 210 * mmPt

/-- `a4_page_width_cm = A4[0] / cm` (app.py line 229 / bill.py
line 199). -/
def a4_page_width_cm : ℚ := a4WidthPt / cmPt

/-- The chosen table width in cm (app.py lines 229–235 / bill.py lines
199–212): the two sides are sorted, the smallest drives the width; widths
above the A4 page width clamp to 20 cm, otherwise width = smallest − 1,
with a final safety clamp to 1 cm when the result is ≤ 0. -/
def total_table_width_cm (s1 s2 : ℚ) : ℚ :=
  let smallest_side := min s1 s2
  let w := if a4_page_width_cm < smallest_side then 20 else smallest_side - 1
  if w ≤ 0 then 1 else w

/-! ## Barcode height planning constants and decision (app.py lines
262–289 / bill.py lines 240–271) -/

/-- `TOP_SPACER_HEIGHT = 0.2 * cm` points. -/
def TOP_SPACER_HEIGHT : ℚ := (2 / 10) * cmPt

/-- `BOTTOM_PADDING_HEIGHT = 3 * (cm / 72.0)` points (bill.py line 242,
whose comment reads `# 3 points`). -/
def BOTTOM_PADDING_HEIGHT : ℚ := 3 * (cmPt / 72)

/-- `TOTAL_ROW_PADDING = TOP_SPACER_HEIGHT + BOTTOM_PADDING_HEIGHT`. -/
def TOTAL_ROW_PADDING : ℚ := TOP_SPACER_HEIGHT + BOTTOM_PADDING_HEIGHT

/-- `MIN_BARCODE_IMAGE_HEIGHT = 0.5 * cm` points. -/
def MIN_BARCODE_IMAGE_HEIGHT : ℚ := (1 / 2) * cmPt

/-- The three-tier barcode target-height decision (app.py lines 271–289 /
bill.py lines 249–271), as a function of the measured table height and
the maximum allowed height, both in points. -/
def target_barcode_height (tableH maxAllowed : ℚ) : ℚ :=
  if maxAllowed ≤ tableH then tableH / 7
  else
    let oneSeventh := tableH / 7
    let totalWith := tableH + oneSeventh + TOTAL_ROW_PADDING
    if totalWith ≤ maxAllowed then oneSeventh
    else
      let remaining := maxAllowed - tableH - TOTAL_ROW_PADDING
      if remaining < MIN_BARCODE_IMAGE_HEIGHT then MIN_BARCODE_IMAGE_HEIGHT
      else remaining

/-! ## Barcode fitting (app.py lines 299–306 / bill.py lines 282–291) -/

/-- Final barcode width: `aspect * target`, rescaled to `0.98 * tableW`
when it exceeds the table width. -/
def final_barcode_width (target tableW : ℚ) (wPx hPx : ℕ) : ℚ :=
  let aspect : ℚ := (wPx : ℚ) / (hPx : ℚ)
  let w := aspect * target
  if tableW < w then tableW * (98 / 100) else w

/-- Final barcode height: the target, except in the rescale branch where
it is the rescaled width divided by the aspect ratio. -/
def final_barcode_height (target tableW : ℚ) (wPx hPx : ℕ) : ℚ :=
  let aspect : ℚ := (wPx : ℚ) / (hPx : ℚ)
  let w := aspect * target
  if tableW < w then (tableW * (98 / 100)) / aspect else target

/-! ## CSV key/value extraction (app.py lines 158–171 / bill.py lines
95–107) -/

/-- Python `dict` assignment `d[k] = v` on an insertion-ordered
association list: overwrite in place when the key is present, else append
at the end. -/
def dictInsert (d : List (String × String)) (k v : String) :
    List (String × String) :=
  if d.any (fun p => p.1 == k) then
    d.map (fun p => if p.1 == k then (k, v) else p)
  else d ++ [(k, v)]

/-- Lookup of a key's value in the association list (first match). -/
def lookupVal (d : List (String × String)) (k : String) : Option String :=
  (d.find? (fun p => p.1 == k)).map Prod.snd

/-- Python `k in d`. -/
def containsKey (d : List (String × String)) (k : String) : Bool :=
  d.any (fun p => p.1 == k)

/-- Processing of one CSV row (app.py lines 163–171): skip empty rows; a
row with > 1 cell maps the trimmed first cell to the remaining cells
joined with `","` and trimmed; a single-cell row maps its trimmed cell to
`""`. -/
def processRow (d : List (String × String)) (row : List String) :
    List (String × String) :=
  match row with
  | [] => d
  | [c] => dictInsert d (pyStrip c) ""
  | c :: rest => dictInsert d (pyStrip c) (pyStrip (String.intercalate "," rest))

/-- Fold of `processRow` over all CSV rows, starting from the empty
record (`data = {}`). -/
def extractData (rows : List (List String)) : List (String × String) :=
  rows.foldl processRow []

/-! ## Document assembly with optional barcode (app.py lines 292–341) -/

/-- A table cell: a wrapped paragraph, a placed image, or the empty
filler string of the barcode row. -/
inductive Cell where
  | para (s : String)
  | image (w h : ℚ)
  deriving DecidableEq

/-- The appended barcode row `[img, ""]`. -/
def barcodeRow (target tableW : ℚ) (wPx hPx : ℕ) : Cell × Cell :=
  (Cell.image (final_barcode_width target tableW wPx hPx)
      (final_barcode_height target tableW wPx hPx),
    Cell.para "")

/-- Barcode handling (app.py lines 292–313): `decoded` is `some (wPx, hPx)`
when the uploaded bytes decode to an image of that pixel size, `none`
when no image was supplied or decoding raised (the `except` branch).  A
decoded image with positive pixel height appends the barcode row and sets
`barcode_exists`; otherwise the rows are returned unchanged. -/
def addBarcode (rows : List (Cell × Cell)) (decoded : Option (ℕ × ℕ))
    (target tableW : ℚ) : List (Cell × Cell) × Bool :=
  match decoded with
  | none => (rows, false)
  | some (wPx, hPx) =>
    if 0 < hPx then (rows ++ [barcodeRow target tableW wPx hPx], true)
    else (rows, false)

/-- The assembled document: final row list, the `barcode_exists` flag and
the `grid_end_row` style bound (−2 when a barcode row is present, −1
otherwise, app.py lines 327–341). -/
structure RenderedDoc where
  rows : List (Cell × Cell)
  barcodeExists : Bool
  gridEndRow : Int
  deriving DecidableEq

/-- Tail of `generate` (app.py lines 292–351): append the barcode row when
possible, then build the final table document. -/
def buildDoc (textRows : List (Cell × Cell)) (decoded : Option (ℕ × ℕ))
    (target tableW : ℚ) : RenderedDoc :=
  let res := addBarcode textRows decoded target tableW
  { rows := res.1
    barcodeExists := res.2
    gridEndRow := if res.2 then -2 else -1 }

end BillGen

namespace BillGen

/-! ## Helper lemmas -/

theorem a4_width_eq : a4_page_width_cm = 21 := by
  norm_num [a4_page_width_cm, a4WidthPt, mmPt, cmPt, inchPt]

theorem find?_map_overwrite (k v : String) :
    ∀ d : List (String × String), d.any (fun p => p.1 == k) = true →
      List.find? (fun p => p.1 == k)
          (d.map (fun p => if p.1 == k then (k, v) else p)) = some (k, v)
  | [], h => by simp at h
  | p :: rest, h => by
    cases hp : (p.1 == k) with
    | true =>
      simp only [List.map_cons]
      rw [if_pos hp, List.find?_cons_of_pos]
      simp
    | false =>
      simp only [List.any_cons, hp, Bool.false_or] at h
      simp only [List.map_cons]
      rw [if_neg (by simp [hp]), List.find?_cons_of_neg _ (by simp [hp])]
      exact find?_map_overwrite k v rest h

theorem lookupVal_dictInsert (d : List (String × String)) (k v : String) :
    lookupVal (dictInsert d k v) k = some v := by
  unfold lookupVal dictInsert
  cases hc : d.any (fun p => p.1 == k) with
  | true =>
    rw [if_pos rfl, find?_map_overwrite k v d hc]
    rfl
  | false =>
    rw [if_neg (by simp), List.find?_append]
    have hnone : List.find? (fun p => p.1 == k) d = none := by
      rw [List.find?_eq_none]
      intro x hx hpx
      have hall : d.any (fun p => p.1 == k) = true :=
        List.any_eq_true.mpr ⟨x, hx, hpx⟩
      rw [hc] at hall
      exact absurd hall (by simp)
    rw [hnone]
    simp [List.find?]

theorem length_dictInsert_of_mem (d : List (String × String)) (k v : String)
    (h : containsKey d k = true) : (dictInsert d k v).length = d.length := by
  unfold containsKey at h
  unfold dictInsert
  rw [if_pos h]
  simp

/-! ## Claim theorems -/

/-- C1: for every pair of positive label side lengths, the table width in
cm chosen before layout equals 20.0 when `min(s1,s2) > 21.0` (the A4
portrait width in cm); otherwise it equals `min(s1,s2) − 1.0`, replaced
by 1.0 only when that difference is ≤ 0. -/
theorem width_rule_c1 (s1 s2 : ℚ) (h1 : 0 < s1) (h2 : 0 < s2) :
    (21 < min s1 s2 → total_table_width_cm s1 s2 = 20) ∧
    (min s1 s2 ≤ 21 →
      (min s1 s2 - 1 ≤ 0 → total_table_width_cm s1 s2 = 1) ∧
      (0 < min s1 s2 - 1 → total_table_width_cm s1 s2 = min s1 s2 - 1)) := by
  refine ⟨fun h => ?_, fun h => ⟨fun h' => ?_, fun h' => ?_⟩⟩ <;>
    simp only [total_table_width_cm, a4_width_eq] <;>
    split_ifs <;> first | rfl | linarith

/-- C1 witness: sides 10 cm × 15 cm give table width 9 cm. -/
theorem width_rule_c1_witness :
    total_table_width_cm 10 15 = min (10 : ℚ) 15 - 1 :=
  ((width_rule_c1 10 15 (by norm_num) (by norm_num)).2 (by norm_num)).2
    (by norm_num)

/-- C2 counterexample: for sides 1.5 cm × 10 cm (so `min = 1.5`,
`1.0 < min < 2.0`), the code chooses width 0.5 cm, not
`max(min − 1.0, 1.0) = 1.0` as the claim states. -/
theorem width_max_rule_counterexample :
    total_table_width_cm (3 / 2) 10 ≠ max (min ((3 : ℚ) / 2) 10 - 1) 1 := by
  have h : total_table_width_cm (3 / 2) 10 = 1 / 2 := by
    simp only [total_table_width_cm, a4_width_eq]
    norm_num [min_def]
  rw [h]
  norm_num [min_def, max_def]

/-- C2 (amended): for every pair of positive side lengths with
`min(s1,s2) ≤ 21.0`, the chosen width equals `min − 1.0` when that
difference is positive and 1.0 when it is ≤ 0; in particular, for
`1.0 < min(s1,s2) < 2.0` the chosen width is `min − 1.0` (a value
strictly below 1), not 1.0. -/
theorem width_rule_c2_amended (s1 s2 : ℚ) (h1 : 0 < s1) (h2 : 0 < s2)
    (hle : min s1 s2 ≤ 21) :
    total_table_width_cm s1 s2 =
      (if min s1 s2 - 1 ≤ 0 then 1 else min s1 s2 - 1) ∧
    (1 < min s1 s2 → min s1 s2 < 2 →
      total_table_width_cm s1 s2 = min s1 s2 - 1) := by
  refine ⟨?_, fun ha hb => ?_⟩ <;>
    simp only [total_table_width_cm, a4_width_eq] <;>
    split_ifs <;> first | rfl | linarith

/-- C2 amended witness: sides 1.5 cm × 10 cm give width 0.5 cm. -/
theorem width_rule_c2_amended_witness :
    total_table_width_cm (3 / 2) 10 = min ((3 : ℚ) / 2) 10 - 1 :=
  (width_rule_c2_amended (3 / 2) 10 (by norm_num) (by norm_num)
      (by norm_num [min_def])).2 (by norm_num [min_def]) (by norm_num [min_def])

/-- C3: the fixed bottom-padding constant of the barcode-height decision
is `3 * (cm / 72)` points = 150/127 ≈ 1.18 pt, NOT the 3 points the
claim (and the source comment `# 3 points`) states.  Divergence witness:
with table height 100 pt and max allowed 122 pt the code takes the
one-seventh branch, while with a true 3 pt bottom padding the
one-seventh test `100 + 100/7 + topSpacer + 3 ≤ 122` fails. -/
theorem bottom_padding_not_three_points :
    BOTTOM_PADDING_HEIGHT = 150 / 127 ∧ BOTTOM_PADDING_HEIGHT ≠ 3 ∧
    target_barcode_height 100 122 = 100 / 7 ∧
    122 < 100 + 100 / 7 + (TOP_SPACER_HEIGHT + 3) := by
  norm_num [BOTTOM_PADDING_HEIGHT, TOP_SPACER_HEIGHT, TOTAL_ROW_PADDING,
    MIN_BARCODE_IMAGE_HEIGHT, target_barcode_height, cmPt, inchPt]

/-- C4: the font-size selector returns 8 for areas ≤ 50 cm², 9 for
areas in (50,100], 10 for (100,500], 16 for (500,2500], 24 above 2500,
and 8 when no area is supplied. -/
theorem font_size_thresholds (a : ℚ) :
    (a ≤ 50 → get_font_size_pt (some a) = 8) ∧
    (50 < a → a ≤ 100 → get_font_size_pt (some a) = 9) ∧
    (100 < a → a ≤ 500 → get_font_size_pt (some a) = 10) ∧
    (500 < a → a ≤ 2500 → get_font_size_pt (some a) = 16) ∧
    (2500 < a → get_font_size_pt (some a) = 24) ∧
    get_font_size_pt none = 8 := by
  refine ⟨fun h => ?_, fun h h' => ?_, fun h h' => ?_, fun h h' => ?_,
    fun h => ?_, rfl⟩ <;>
    simp only [get_font_size_pt] <;> split_ifs <;> first | rfl | linarith

/-- C4 witness: one area in each tier. -/
theorem font_size_thresholds_witness :
    get_font_size_pt (some 30) = 8 ∧ get_font_size_pt (some 70) = 9 ∧
    get_font_size_pt (some 300) = 10 ∧ get_font_size_pt (some 1000) = 16 ∧
    get_font_size_pt (some 3000) = 24 :=
  ⟨(font_size_thresholds 30).1 (by norm_num),
   (font_size_thresholds 70).2.1 (by norm_num) (by norm_num),
   (font_size_thresholds 300).2.2.1 (by norm_num) (by norm_num),
   (font_size_thresholds 1000).2.2.2.1 (by norm_num) (by norm_num),
   (font_size_thresholds 3000).2.2.2.2.1 (by norm_num)⟩

/-- C5: with positive pixel height and positive table width, when
`aspect · target ≤ tableW` the final barcode size is
`(aspect · target, target)`; otherwise the final width is
`tableW · 0.98`, the final height is that width divided by the aspect
ratio, and the final width-to-height ratio still equals the aspect
ratio. -/
theorem barcode_fit_spec (target tableW : ℚ) (wPx hPx : ℕ)
    (hh : 0 < hPx) (hW : 0 < tableW) :
    ((wPx : ℚ) / (hPx : ℚ) * target ≤ tableW →
      final_barcode_width target tableW wPx hPx = (wPx : ℚ) / (hPx : ℚ) * target ∧
      final_barcode_height target tableW wPx hPx = target) ∧
    (tableW < (wPx : ℚ) / (hPx : ℚ) * target →
      final_barcode_width target tableW wPx hPx = tableW * (98 / 100) ∧
      final_barcode_height target tableW wPx hPx
        = tableW * (98 / 100) / ((wPx : ℚ) / (hPx : ℚ)) ∧
      final_barcode_width target tableW wPx hPx
          / final_barcode_height target tableW wPx hPx
        = (wPx : ℚ) / (hPx : ℚ)) := by
  constructor
  · intro h
    simp only [final_barcode_width, final_barcode_height]
    rw [if_neg (not_lt.mpr h), if_neg (not_lt.mpr h)]
    exact ⟨rfl, rfl⟩
  · intro h
    have hpos : (0 : ℚ) < (wPx : ℚ) / (hPx : ℚ) * target := lt_trans hW h
    have ha : ((wPx : ℚ) / (hPx : ℚ)) ≠ 0 := by
      intro h0
      rw [h0, zero_mul] at hpos
      exact lt_irrefl 0 hpos
    have hwc : tableW * (98 / 100) ≠ 0 := by positivity
    simp only [final_barcode_width, final_barcode_height]
    rw [if_pos h, if_pos h]
    refine ⟨rfl, rfl, ?_⟩
    field_simp
    ring

/-- C5 witness: target 50 pt, table width 80 pt, 200×100 px image
(aspect 2): `2·50 = 100 > 80`, so width rescales to 78.4 pt and the
width-to-height ratio stays 2. -/
theorem barcode_fit_spec_witness :
    final_barcode_width 50 80 200 100 = 80 * (98 / 100) ∧
    final_barcode_width 50 80 200 100 / final_barcode_height 50 80 200 100
      = ((200 : ℕ) : ℚ) / ((100 : ℕ) : ℚ) :=
  ⟨((barcode_fit_spec 50 80 200 100 (by norm_num) (by norm_num)).2
      (by norm_num)).1,
   ((barcode_fit_spec 50 80 200 100 (by norm_num) (by norm_num)).2
      (by norm_num)).2.2⟩

/-- C6: the extracted record of `[["A","1"],["A","2"]]` is exactly
`[("A","2")]`; in general an insertion with an existing key overwrites
the value (the key then looks up to the new value) without adding an
entry (the record length is unchanged). -/
theorem duplicate_key_overwrite :
    extractData [["A", "1"], ["A", "2"]] = [("A", "2")] ∧
    ∀ d k v, lookupVal (dictInsert d k v) k = some v ∧
      (containsKey d k = true → (dictInsert d k v).length = d.length) := by
  refine ⟨by decide, fun d k v =>
    ⟨lookupVal_dictInsert d k v, fun h => length_dictInsert_of_mem d k v h⟩⟩

/-- C6 witness: inserting `("A","2")` into `[("A","1")]` yields value
"2" for "A" and still exactly one entry. -/
theorem duplicate_key_overwrite_witness :
    lookupVal (dictInsert [("A", "1")] "A" "2") "A" = some "2" ∧
    (dictInsert [("A", "1")] "A" "2").length = 1 :=
  ⟨(duplicate_key_overwrite.2 [("A", "1")] "A" "2").1,
   (duplicate_key_overwrite.2 [("A", "1")] "A" "2").2 (by decide)⟩

/-- C7: an empty row is skipped; a row with more than one cell yields
key = first cell trimmed and value = remaining cells joined with ","
then trimmed; a single-cell row yields the trimmed cell with empty
value; and `["Note","a","b"]` extracts to value "a,b". -/
theorem row_parsing_spec (d : List (String × String)) (c : String)
    (rest : List String) :
    processRow d [] = d ∧
    (rest ≠ [] → processRow d (c :: rest) =
      dictInsert d (pyStrip c) (pyStrip (String.intercalate "," rest))) ∧
    processRow d [c] = dictInsert d (pyStrip c) "" ∧
    lookupVal (extractData [["Note", "a", "b"]]) "Note" = some "a,b" := by
  refine ⟨rfl, fun h => ?_, rfl, by decide⟩
  cases rest with
  | nil => exact absurd rfl h
  | cons r rs => rfl

/-- C7 witness: the multi-cell row `["Note","a","b"]` is processed by
trimming the key and joining the remaining cells with ",". -/
theorem row_parsing_spec_witness :
    processRow [] ["Note", "a", "b"] =
      dictInsert [] (pyStrip "Note")
        (pyStrip (String.intercalate "," ["a", "b"])) :=
  (row_parsing_spec [] "Note" ["a", "b"]).2.1 (List.cons_ne_nil _ _)

/-- C8: when the supplied barcode image is undecodable (`none`) or has
zero pixel height, the assembled document keeps exactly the text rows,
the `barcode_exists` flag stays false, and the grid covers all rows
(grid end −1): the image failure never aborts the render. -/
theorem barcode_failure_recovery (textRows : List (Cell × Cell))
    (decoded : Option (ℕ × ℕ)) (target tableW : ℚ)
    (h : decoded = none ∨ ∃ wPx, decoded = some (wPx, 0)) :
    (buildDoc textRows decoded target tableW).rows = textRows ∧
    (buildDoc textRows decoded target tableW).barcodeExists = false ∧
    (buildDoc textRows decoded target tableW).gridEndRow = -1 := by
  rcases h with h | ⟨wPx, h⟩ <;> subst h <;> simp [buildDoc, addBarcode]

/-- C8 witness: one text row with an undecodable image. -/
theorem barcode_failure_recovery_witness :
    (buildDoc [(Cell.para "k", Cell.para "v")] none 10 10).rows
        = [(Cell.para "k", Cell.para "v")] ∧
    (buildDoc [(Cell.para "k", Cell.para "v")] none 10 10).barcodeExists
        = false ∧
    (buildDoc [(Cell.para "k", Cell.para "v")] none 10 10).gridEndRow = -1 :=
  barcode_failure_recovery [(Cell.para "k", Cell.para "v")] none 10 10
    (Or.inl rfl)

/-- C10: the helper functions duplicated between app.py and bill.py are
extensionally equal: both `get_font_size_pt` copies agree on every
input, and both `clean_text` copies agree on every string. -/
theorem entry_scripts_agree :
    (∀ a, get_font_size_pt a = Bill.get_font_size_pt a) ∧
    (∀ s, clean_text s = Bill.clean_text s) :=
  ⟨fun _ => rfl, fun _ => rfl⟩

end BillGen

namespace BillGen

/-! ## Sanitizer lemmas (for C9) -/

theorem trimRight_cons (a : Char) (l : List Char) :
    trimRight (a :: l) =
      match trimRight l with
      | [] => if pyIsSpace a then [] else [a]
      | r => a :: r := by
  simp only [trimRight]

theorem collapseAux_cons (b : Bool) (a : Char) (l : List Char) :
    collapseAux b (a :: l) =
      if pyIsSpace a then
        (if b then collapseAux true l else ' ' :: collapseAux true l)
      else a :: collapseAux false l := by
  simp only [collapseAux]

theorem mem_trimRight (l : List Char) (c : Char) (h : c ∈ trimRight l) :
    c ∈ l := by
  induction l with
  | nil => simpa [trimRight] using h
  | cons a rest ih =>
    cases htr : trimRight rest with
    | nil =>
      simp only [trimRight, htr] at h
      by_cases hs : pyIsSpace a = true
      · simp [hs] at h
      · simp [hs] at h
        simp [h]
    | cons b bs =>
      simp only [trimRight, htr] at h
      rcases List.mem_cons.mp h with rfl | hmem
      · exact List.mem_cons_self _ _
      · exact List.mem_cons_of_mem _ (ih (by rw [htr]; exact hmem))

theorem trimRight_lastNonWs (l : List Char) :
    ∀ c, (trimRight l).getLast? = some c → pyIsSpace c = false := by
  induction l with
  | nil => simp [trimRight]
  | cons a rest ih =>
    intro c h
    cases htr : trimRight rest with
    | nil =>
      simp only [trimRight, htr] at h
      by_cases hs : pyIsSpace a = true
      · simp [hs] at h
      · simp [hs] at h
        rw [← h]
        simpa using hs
    | cons b bs =>
      simp only [trimRight, htr] at h
      rw [List.getLast?_cons_cons] at h
      exact ih c (by rw [htr]; exact h)

theorem trimRight_eq_self (l : List Char)
    (h : ∀ c, l.getLast? = some c → pyIsSpace c = false) : trimRight l = l := by
  induction l with
  | nil => simp [trimRight]
  | cons a rest ih =>
    cases rest with
    | nil =>
      have ha := h a (by simp)
      simp [trimRight, ha]
    | cons b bs =>
      have hrest : ∀ c, (b :: bs).getLast? = some c → pyIsSpace c = false :=
        fun c hc => h c (by rw [List.getLast?_cons_cons]; exact hc)
      have htr := ih hrest
      rw [trimRight_cons, htr]

theorem head?_trimRight (l : List Char) :
    (trimRight l).head? = none ∨ (trimRight l).head? = l.head? := by
  cases l with
  | nil => left; simp [trimRight]
  | cons a rest =>
    cases htr : trimRight rest with
    | nil =>
      by_cases hs : pyIsSpace a = true
      · left; simp [trimRight, htr, hs]
      · right; simp [trimRight, htr, hs]
    | cons b bs => right; simp [trimRight, htr]

theorem head?_dropWhile_not (l : List Char) :
    ∀ c, ((l.dropWhile pyIsSpace).head? = some c) → pyIsSpace c = false := by
  induction l with
  | nil => simp
  | cons a rest ih =>
    intro c h
    by_cases hs : pyIsSpace a = true
    · rw [List.dropWhile_cons, if_pos hs] at h
      exact ih c h
    · rw [List.dropWhile_cons, if_neg hs] at h
      simp only [List.head?_cons, Option.some.injEq] at h
      rw [← h]
      simpa using hs

theorem dropWhile_eq_self_of_head (l : List Char)
    (h : ∀ c, l.head? = some c → pyIsSpace c = false) :
    l.dropWhile pyIsSpace = l := by
  cases l with
  | nil => simp
  | cons a rest =>
    have ha := h a rfl
    rw [List.dropWhile_cons, if_neg (by simp [ha])]

theorem mem_stripL (l : List Char) (c : Char) (h : c ∈ stripL l) : c ∈ l :=
  (List.dropWhile_sublist pyIsSpace).mem (mem_trimRight _ c h)

theorem stripL_head (l : List Char) :
    ∀ c, (stripL l).head? = some c → pyIsSpace c = false := by
  intro c h
  unfold stripL at h
  rcases head?_trimRight (l.dropWhile pyIsSpace) with h0 | h0
  · rw [h0] at h
    exact absurd h (by simp)
  · rw [h0] at h
    exact head?_dropWhile_not l c h

theorem stripL_last (l : List Char) :
    ∀ c, (stripL l).getLast? = some c → pyIsSpace c = false :=
  trimRight_lastNonWs (l.dropWhile pyIsSpace)

theorem mem_collapseAux (l : List Char) :
    ∀ (b : Bool) (c : Char), c ∈ collapseAux b l → c = ' ' ∨ c ∈ l := by
  induction l with
  | nil => simp [collapseAux]
  | cons a rest ih =>
    intro b c h
    by_cases hs : pyIsSpace a = true
    · cases b with
      | true =>
        simp only [collapseAux, hs, if_true] at h
        rcases ih true c h with h' | h'
        · exact Or.inl h'
        · exact Or.inr (List.mem_cons_of_mem _ h')
      | false =>
        simp only [collapseAux, hs, if_true] at h
        rcases List.mem_cons.mp h with rfl | h'
        · exact Or.inl rfl
        · rcases ih true c h' with h'' | h''
          · exact Or.inl h''
          · exact Or.inr (List.mem_cons_of_mem _ h'')
    · simp only [collapseAux, hs, if_false] at h
      rcases List.mem_cons.mp h with rfl | h'
      · exact Or.inr (List.mem_cons_self _ _)
      · rcases ih false c h' with h'' | h''
        · exact Or.inl h''
        · exact Or.inr (List.mem_cons_of_mem _ h'')

theorem collapseAux_fixpoints (l : List Char) :
    (collapseAux true (collapseAux true l) = collapseAux true l) ∧
    (∀ b, collapseAux false (collapseAux b l) = collapseAux b l) := by
  have hsp : pyIsSpace ' ' = true := by decide
  induction l with
  | nil => simp [collapseAux]
  | cons a rest ih =>
    obtain ⟨ihT, ihF⟩ := ih
    by_cases hs : pyIsSpace a = true
    · constructor
      · rw [collapseAux_cons, if_pos hs, if_pos rfl]
        exact ihT
      · intro b
        cases b with
        | true =>
          rw [collapseAux_cons, if_pos hs, if_pos rfl]
          exact ihF true
        | false =>
          rw [collapseAux_cons, if_pos hs, if_neg (by simp)]
          rw [collapseAux_cons, if_pos hsp, if_neg (by simp)]
          rw [ihT]
    · constructor
      · rw [collapseAux_cons, if_neg hs]
        rw [collapseAux_cons, if_neg hs]
        rw [ihF false]
      · intro b
        rw [collapseAux_cons, if_neg hs]
        rw [collapseAux_cons, if_neg hs]
        rw [ihF false]

theorem collapseAux_head (l : List Char)
    (hh : ∀ c, l.head? = some c → pyIsSpace c = false) :
    ∀ c, (collapseAux false l).head? = some c → pyIsSpace c = false := by
  cases l with
  | nil => simp [collapseAux]
  | cons a rest =>
    have ha := hh a rfl
    intro c h
    rw [collapseAux_cons, if_neg (by simp [ha])] at h
    simp only [List.head?_cons, Option.some.injEq] at h
    rw [← h]
    exact ha

theorem collapseAux_last (l : List Char) :
    ∀ b : Bool, (∀ c, l.getLast? = some c → pyIsSpace c = false) →
      (∀ c, (collapseAux b l).getLast? = some c → pyIsSpace c = false) ∧
      (collapseAux b l = [] → l = []) := by
  induction l with
  | nil => simp [collapseAux]
  | cons a rest ih =>
    intro b hl
    cases rest with
    | nil =>
      have ha := hl a (by simp)
      rw [collapseAux_cons, if_neg (by simp [ha])]
      constructor
      · intro c hc
        simp only [collapseAux, List.getLast?_singleton, Option.some.injEq] at hc
        rw [← hc]
        exact ha
      · simp [collapseAux]
    | cons r rs =>
      have hrest : ∀ c, (r :: rs).getLast? = some c → pyIsSpace c = false :=
        fun c hc => hl c (by rw [List.getLast?_cons_cons]; exact hc)
      by_cases hs : pyIsSpace a = true
      · cases b with
        | true =>
          rw [collapseAux_cons, if_pos hs, if_pos rfl]
          obtain ⟨h1, h2⟩ := ih true hrest
          refine ⟨h1, fun h0 => ?_⟩
          exact absurd (h2 h0) (by simp)
        | false =>
          rw [collapseAux_cons, if_pos hs, if_neg (by simp)]
          obtain ⟨h1, h2⟩ := ih true hrest
          have hne : collapseAux true (r :: rs) ≠ [] := by
            intro h0
            exact absurd (h2 h0) (by simp)
          constructor
          · intro c hc
            cases hX : collapseAux true (r :: rs) with
            | nil => exact absurd hX hne
            | cons x xs =>
              rw [hX, List.getLast?_cons_cons] at hc
              exact h1 c (by rw [hX]; exact hc)
          · intro h0
            simp at h0
      · rw [collapseAux_cons, if_neg hs]
        obtain ⟨h1, h2⟩ := ih false hrest
        have hne : collapseAux false (r :: rs) ≠ [] := by
          intro h0
          exact absurd (h2 h0) (by simp)
        constructor
        · intro c hc
          cases hX : collapseAux false (r :: rs) with
          | nil => exact absurd hX hne
          | cons x xs =>
            rw [hX, List.getLast?_cons_cons] at hc
            exact h1 c (by rw [hX]; exact hc)
        · intro h0
          simp at h0

theorem stripL_eq_self (l : List Char)
    (hh : ∀ c, l.head? = some c → pyIsSpace c = false)
    (hl : ∀ c, l.getLast? = some c → pyIsSpace c = false) : stripL l = l := by
  unfold stripL
  rw [dropWhile_eq_self_of_head l hh]
  exact trimRight_eq_self l hl

theorem filter_removed_eq_self (l : List Char)
    (h : ∀ c ∈ l, isRemoved c = false) :
    l.filter (fun c => !isRemoved c) = l :=
  List.filter_eq_self.mpr (fun c hc => by rw [h c hc]; rfl)

theorem cleanList_idem (l : List Char) (h : ∀ c ∈ l, isRemoved c = false) :
    collapseWs ((stripL (collapseWs ((stripL l).filter
          (fun c => !isRemoved c)))).filter (fun c => !isRemoved c))
      = collapseWs ((stripL l).filter (fun c => !isRemoved c)) := by
  have hm_banned : ∀ c ∈ stripL l, isRemoved c = false :=
    fun c hc => h c (mem_stripL l c hc)
  rw [filter_removed_eq_self _ hm_banned]
  have ht_banned : ∀ c ∈ collapseWs (stripL l), isRemoved c = false := by
    intro c hc
    rcases mem_collapseAux (stripL l) false c hc with rfl | hc'
    · decide
    · exact hm_banned c hc'
  have hst_banned :
      ∀ c ∈ stripL (collapseWs (stripL l)), isRemoved c = false :=
    fun c hc => ht_banned c (mem_stripL _ c hc)
  rw [filter_removed_eq_self _ hst_banned]
  have hhead : ∀ c, (collapseWs (stripL l)).head? = some c →
      pyIsSpace c = false :=
    collapseAux_head (stripL l) (stripL_head l)
  have hlast := collapseAux_last (stripL l) false (stripL_last l)
  rw [stripL_eq_self _ hhead hlast.1]
  exact (collapseAux_fixpoints (stripL l)).2 false

/-! ## C9 claim theorems -/

/-- C9 counterexample: on `"a \x01"` the sanitizer returns `"a "` (the
control character is removed only after the initial strip, exposing a
trailing space that is never trimmed again), and sanitizing `"a "`
returns `"a"`, so `clean_text` is not idempotent. -/
theorem clean_text_not_idempotent :
    clean_text (clean_text (String.mk ['a', ' ', Char.ofNat 1]))
      ≠ clean_text (String.mk ['a', ' ', Char.ofNat 1]) := by
  decide

/-- C9 (amended): the sanitizer is idempotent on every input that
contains none of the removed characters (ASCII controls, U+2000–U+206F,
the box/bullet glyphs); a removed character adjacent to boundary
whitespace can break idempotence, as the counterexample shows. -/
theorem clean_text_idempotent_on_clean_inputs (s : String)
    (h : ∀ c ∈ s.data, isRemoved c = false) :
    clean_text (clean_text s) = clean_text s :=
  congrArg String.mk (cleanList_idem s.data h)

/-- C9 amended witness: a plain ASCII string with doubled spaces. -/
theorem clean_text_idempotent_witness :
    clean_text (clean_text "a  b") = clean_text "a  b" :=
  clean_text_idempotent_on_clean_inputs "a  b" (by decide)

end BillGen
